import Mathlib

/-!
# Pocket Notes: note management and filtering logic of `src/app/page.js`

A shallow embedding of the pure logic of the page component:

* `normalizeTags` (page.js 9-19), `createNote` (page.js 29-37),
* the derived views `allTags` (page.js 266-270) and `filteredNotes` (page.js 272-290),
* the state updaters `handleCreate` (page.js 292-294) and `handleDelete` (page.js 296-298).

Modelling conventions.

* A JavaScript string is a finite sequence of UTF-16 code units, `Str := List Nat`.
  `js "abc"` gives the code units of a literal.
* `String.prototype.trim` strips the ECMAScript `WhiteSpace` and `LineTerminator` code units
  from both ends.
* `String.prototype.toLowerCase` is the locale-insensitive default case conversion of the
  Unicode Standard on the code points of the string (a surrogate pair is one code point, a
  lone surrogate stands for itself): the simple lower-case mappings of the Unicode Character
  Database, the two-point mapping of `U+0130`, and the `Final_Sigma` rule of
  `SpecialCasing.txt`, evaluated as the engines do (scanning over case-ignorable code
  points to the nearest other one). The tables are those of Unicode 14.0.
* `Array.prototype.sort` is a stable sort (ECMAScript 2019); for a consistent comparator the
  result of a stable sort is unique, and it is computed here by stable insertion.
* `new Set(iterable)` followed by `Array.from` lists the distinct elements in order of first
  insertion.
* `createdAt` is stored as an ISO-8601 string produced by `Date.prototype.toISOString`;
  `new Date(createdAt)` recovers the time value (milliseconds since the epoch), which is what
  the embedding keeps in the record.
* The identifier and the clock read by `createNote` are inputs of the embedded function.
-/

namespace PocketNotes

/-! ## Strings -/

/-- A JavaScript string as its sequence of UTF-16 code units. -/
abbrev Str := List Nat

/-- ECMAScript `WhiteSpace` or `LineTerminator` code unit: what `trim` strips. -/
def isWhiteSpace (c : Nat) : Bool :=
  c == 9 || c == 10 || c == 11 || c == 12 || c == 13 || c == 32 || c == 160 ||
  c == 5760 || (8192 ≤ c && c ≤ 8202) || c == 8232 || c == 8233 || c == 8239 ||
  c == 8287 || c == 12288 || c == 65279

/-- The method `String.prototype.trim`. -/
def trim (s : Str) : Str :=
  (s.dropWhile isWhiteSpace).rdropWhile isWhiteSpace

/-! ## Lower-casing (Unicode 14.0 default case conversion) -/

/-- High (leading) surrogate code unit. -/
def isHighSurrogate (c : Nat) : Bool := Nat.ble 55296 c && Nat.ble c 56319

/-- Low (trailing) surrogate code unit. -/
def isLowSurrogate (c : Nat) : Bool := Nat.ble 56320 c && Nat.ble c 57343

/-- The code point encoded by a surrogate pair. -/
def codePointOfPair (hi lo : Nat) : Nat := 65536 + (hi - 55296) * 1024 + (lo - 56320)

/-- UTF-16 encoding of a code point. -/
def encodeCodePoint (c : Nat) : Str :=
  if c < 65536 then [c] else [55296 + (c - 65536) / 1024, 56320 + (c - 65536) % 1024]

/-- The simple lower-case mappings of the Unicode Character Database: a run
`(src, dst, count, step)` maps `src + k * step` to `dst + k * step` for `k < count`. The runs
are in ascending order and grouped in blocks, each keyed by its last source code point. -/
def lowerBlocks : List (Nat × List (Nat × Nat × Nat × Nat)) :=
  [(394,
     [(65, 97, 26, 1), (192, 224, 23, 1), (216, 248, 7, 1), (256, 257, 24, 2),
      (306, 307, 3, 2), (313, 314, 8, 2), (330, 331, 23, 2), (376, 255, 1, 1),
      (377, 378, 3, 2), (385, 595, 1, 1), (386, 387, 2, 2), (390, 596, 1, 1),
      (391, 392, 1, 1), (393, 598, 2, 1)]),
   (420,
     [(395, 396, 1, 1), (398, 477, 1, 1), (399, 601, 1, 1), (400, 603, 1, 1),
      (401, 402, 1, 1), (403, 608, 1, 1), (404, 611, 1, 1), (406, 617, 1, 1),
      (407, 616, 1, 1), (408, 409, 1, 1), (412, 623, 1, 1), (413, 626, 1, 1),
      (415, 629, 1, 1), (416, 417, 3, 2)]),
   (455,
     [(422, 640, 1, 1), (423, 424, 1, 1), (425, 643, 1, 1), (428, 429, 1, 1),
      (430, 648, 1, 1), (431, 432, 1, 1), (433, 650, 2, 1), (435, 436, 2, 2),
      (439, 658, 1, 1), (440, 441, 1, 1), (444, 445, 1, 1), (452, 454, 1, 1),
      (453, 454, 1, 1), (455, 457, 1, 1)]),
   (573,
     [(456, 457, 1, 1), (458, 460, 1, 1), (459, 460, 9, 2), (478, 479, 9, 2),
      (497, 499, 1, 1), (498, 499, 2, 2), (502, 405, 1, 1), (503, 447, 1, 1),
      (504, 505, 20, 2), (544, 414, 1, 1), (546, 547, 9, 2), (570, 11365, 1, 1),
      (571, 572, 1, 1), (573, 410, 1, 1)]),
   (929,
     [(574, 11366, 1, 1), (577, 578, 1, 1), (579, 384, 1, 1), (580, 649, 1, 1),
      (581, 652, 1, 1), (582, 583, 5, 2), (880, 881, 2, 2), (886, 887, 1, 1),
      (895, 1011, 1, 1), (902, 940, 1, 1), (904, 941, 3, 1), (908, 972, 1, 1),
      (910, 973, 2, 1), (913, 945, 17, 1)]),
   (1229,
     [(931, 963, 9, 1), (975, 983, 1, 1), (984, 985, 12, 2), (1012, 952, 1, 1),
      (1015, 1016, 1, 1), (1017, 1010, 1, 1), (1018, 1019, 1, 1), (1021, 891, 3, 1),
      (1024, 1104, 16, 1), (1040, 1072, 32, 1), (1120, 1121, 17, 2), (1162, 1163, 27, 2),
      (1216, 1231, 1, 1), (1217, 1218, 7, 2)]),
   (7965,
     [(1232, 1233, 48, 2), (1329, 1377, 38, 1), (4256, 11520, 38, 1), (4295, 11559, 1, 1),
      (4301, 11565, 1, 1), (5024, 43888, 80, 1), (5104, 5112, 6, 1), (7312, 4304, 43, 1),
      (7357, 4349, 3, 1), (7680, 7681, 75, 2), (7838, 223, 1, 1), (7840, 7841, 48, 2),
      (7944, 7936, 8, 1), (7960, 7952, 6, 1)]),
   (8153,
     [(7976, 7968, 8, 1), (7992, 7984, 8, 1), (8008, 8000, 6, 1), (8025, 8017, 4, 2),
      (8040, 8032, 8, 1), (8072, 8064, 8, 1), (8088, 8080, 8, 1), (8104, 8096, 8, 1),
      (8120, 8112, 2, 1), (8122, 8048, 2, 1), (8124, 8115, 1, 1), (8136, 8050, 4, 1),
      (8140, 8131, 1, 1), (8152, 8144, 2, 1)]),
   (9423,
     [(8154, 8054, 2, 1), (8168, 8160, 2, 1), (8170, 8058, 2, 1), (8172, 8165, 1, 1),
      (8184, 8056, 2, 1), (8186, 8060, 2, 1), (8188, 8179, 1, 1), (8486, 969, 1, 1),
      (8490, 107, 1, 1), (8491, 229, 1, 1), (8498, 8526, 1, 1), (8544, 8560, 16, 1),
      (8579, 8580, 1, 1), (9398, 9424, 26, 1)]),
   (11490,
     [(11264, 11312, 48, 1), (11360, 11361, 1, 1), (11362, 619, 1, 1), (11363, 7549, 1, 1),
      (11364, 637, 1, 1), (11367, 11368, 3, 2), (11373, 593, 1, 1), (11374, 625, 1, 1),
      (11375, 592, 1, 1), (11376, 594, 1, 1), (11378, 11379, 1, 1), (11381, 11382, 1, 1),
      (11390, 575, 2, 1), (11392, 11393, 50, 2)]),
   (42922,
     [(11499, 11500, 2, 2), (11506, 11507, 1, 1), (42560, 42561, 23, 2), (42624, 42625, 14, 2),
      (42786, 42787, 7, 2), (42802, 42803, 31, 2), (42873, 42874, 2, 2), (42877, 7545, 1, 1),
      (42878, 42879, 5, 2), (42891, 42892, 1, 1), (42893, 613, 1, 1), (42896, 42897, 2, 2),
      (42902, 42903, 10, 2), (42922, 614, 1, 1)]),
   (42960,
     [(42923, 604, 1, 1), (42924, 609, 1, 1), (42925, 620, 1, 1), (42926, 618, 1, 1),
      (42928, 670, 1, 1), (42929, 647, 1, 1), (42930, 669, 1, 1), (42931, 43859, 1, 1),
      (42932, 42933, 8, 2), (42948, 42900, 1, 1), (42949, 642, 1, 1), (42950, 7566, 1, 1),
      (42951, 42952, 2, 2), (42960, 42961, 1, 1)]),
   (125217,
     [(42966, 42967, 2, 2), (42997, 42998, 1, 1), (65313, 65345, 26, 1), (66560, 66600, 40, 1),
      (66736, 66776, 36, 1), (66928, 66967, 11, 1), (66940, 66979, 15, 1), (66956, 66995, 7, 1),
      (66964, 67003, 2, 1), (68736, 68800, 51, 1), (71840, 71872, 32, 1), (93760, 93792, 32, 1),
      (125184, 125218, 34, 1)])]

/-- Code points with the property `Case_Ignorable` (ranges, both ends included). -/
def caseIgnorableRanges : List (Nat × Nat) :=
  [(39, 39), (46, 46), (58, 58), (94, 94), (96, 96), (168, 168),
   (173, 173), (175, 175), (180, 180), (183, 184), (688, 879), (884, 885),
   (890, 890), (900, 901), (903, 903), (1155, 1161), (1369, 1369), (1375, 1375),
   (1425, 1469), (1471, 1471), (1473, 1474), (1476, 1477), (1479, 1479), (1524, 1524),
   (1536, 1541), (1552, 1562), (1564, 1564), (1600, 1600), (1611, 1631), (1648, 1648),
   (1750, 1757), (1759, 1768), (1770, 1773), (1807, 1807), (1809, 1809), (1840, 1866),
   (1958, 1968), (2027, 2037), (2042, 2042), (2045, 2045), (2070, 2093), (2137, 2139),
   (2184, 2184), (2192, 2193), (2200, 2207), (2249, 2306), (2362, 2362), (2364, 2364),
   (2369, 2376), (2381, 2381), (2385, 2391), (2402, 2403), (2417, 2417), (2433, 2433),
   (2492, 2492), (2497, 2500), (2509, 2509), (2530, 2531), (2558, 2558), (2561, 2562),
   (2620, 2620), (2625, 2626), (2631, 2632), (2635, 2637), (2641, 2641), (2672, 2673),
   (2677, 2677), (2689, 2690), (2748, 2748), (2753, 2757), (2759, 2760), (2765, 2765),
   (2786, 2787), (2810, 2815), (2817, 2817), (2876, 2876), (2879, 2879), (2881, 2884),
   (2893, 2893), (2901, 2902), (2914, 2915), (2946, 2946), (3008, 3008), (3021, 3021),
   (3072, 3072), (3076, 3076), (3132, 3132), (3134, 3136), (3142, 3144), (3146, 3149),
   (3157, 3158), (3170, 3171), (3201, 3201), (3260, 3260), (3263, 3263), (3270, 3270),
   (3276, 3277), (3298, 3299), (3328, 3329), (3387, 3388), (3393, 3396), (3405, 3405),
   (3426, 3427), (3457, 3457), (3530, 3530), (3538, 3540), (3542, 3542), (3633, 3633),
   (3636, 3642), (3654, 3662), (3761, 3761), (3764, 3772), (3782, 3782), (3784, 3789),
   (3864, 3865), (3893, 3893), (3895, 3895), (3897, 3897), (3953, 3966), (3968, 3972),
   (3974, 3975), (3981, 3991), (3993, 4028), (4038, 4038), (4141, 4144), (4146, 4151),
   (4153, 4154), (4157, 4158), (4184, 4185), (4190, 4192), (4209, 4212), (4226, 4226),
   (4229, 4230), (4237, 4237), (4253, 4253), (4348, 4348), (4957, 4959), (5906, 5908),
   (5938, 5939), (5970, 5971), (6002, 6003), (6068, 6069), (6071, 6077), (6086, 6086),
   (6089, 6099), (6103, 6103), (6109, 6109), (6155, 6159), (6211, 6211), (6277, 6278),
   (6313, 6313), (6432, 6434), (6439, 6440), (6450, 6450), (6457, 6459), (6679, 6680),
   (6683, 6683), (6742, 6742), (6744, 6750), (6752, 6752), (6754, 6754), (6757, 6764),
   (6771, 6780), (6783, 6783), (6823, 6823), (6832, 6862), (6912, 6915), (6964, 6964),
   (6966, 6970), (6972, 6972), (6978, 6978), (7019, 7027), (7040, 7041), (7074, 7077),
   (7080, 7081), (7083, 7085), (7142, 7142), (7144, 7145), (7149, 7149), (7151, 7153),
   (7212, 7219), (7222, 7223), (7288, 7293), (7376, 7378), (7380, 7392), (7394, 7400),
   (7405, 7405), (7412, 7412), (7416, 7417), (7468, 7530), (7544, 7544), (7579, 7679),
   (8125, 8125), (8127, 8129), (8141, 8143), (8157, 8159), (8173, 8175), (8189, 8190),
   (8203, 8207), (8216, 8217), (8228, 8228), (8231, 8231), (8234, 8238), (8288, 8292),
   (8294, 8303), (8305, 8305), (8319, 8319), (8336, 8348), (8400, 8432), (11388, 11389),
   (11503, 11505), (11631, 11631), (11647, 11647), (11744, 11775), (11823, 11823), (12293, 12293),
   (12330, 12333), (12337, 12341), (12347, 12347), (12441, 12446), (12540, 12542), (40981, 40981),
   (42232, 42237), (42508, 42508), (42607, 42610), (42612, 42621), (42623, 42623), (42652, 42655),
   (42736, 42737), (42752, 42785), (42864, 42864), (42888, 42890), (42994, 42996), (43000, 43001),
   (43010, 43010), (43014, 43014), (43019, 43019), (43045, 43046), (43052, 43052), (43204, 43205),
   (43232, 43249), (43263, 43263), (43302, 43309), (43335, 43345), (43392, 43394), (43443, 43443),
   (43446, 43449), (43452, 43453), (43471, 43471), (43493, 43494), (43561, 43566), (43569, 43570),
   (43573, 43574), (43587, 43587), (43596, 43596), (43632, 43632), (43644, 43644), (43696, 43696),
   (43698, 43700), (43703, 43704), (43710, 43711), (43713, 43713), (43741, 43741), (43756, 43757),
   (43763, 43764), (43766, 43766), (43867, 43871), (43881, 43883), (44005, 44005), (44008, 44008),
   (44013, 44013), (64286, 64286), (64434, 64450), (65024, 65039), (65043, 65043), (65056, 65071),
   (65106, 65106), (65109, 65109), (65279, 65279), (65287, 65287), (65294, 65294), (65306, 65306),
   (65342, 65342), (65344, 65344), (65392, 65392), (65438, 65439), (65507, 65507), (65529, 65531),
   (66045, 66045), (66272, 66272), (66422, 66426), (67456, 67461), (67463, 67504), (67506, 67514),
   (68097, 68099), (68101, 68102), (68108, 68111), (68152, 68154), (68159, 68159), (68325, 68326),
   (68900, 68903), (69291, 69292), (69446, 69456), (69506, 69509), (69633, 69633), (69688, 69702),
   (69744, 69744), (69747, 69748), (69759, 69761), (69811, 69814), (69817, 69818), (69821, 69821),
   (69826, 69826), (69837, 69837), (69888, 69890), (69927, 69931), (69933, 69940), (70003, 70003),
   (70016, 70017), (70070, 70078), (70089, 70092), (70095, 70095), (70191, 70193), (70196, 70196),
   (70198, 70199), (70206, 70206), (70367, 70367), (70371, 70378), (70400, 70401), (70459, 70460),
   (70464, 70464), (70502, 70508), (70512, 70516), (70712, 70719), (70722, 70724), (70726, 70726),
   (70750, 70750), (70835, 70840), (70842, 70842), (70847, 70848), (70850, 70851), (71090, 71093),
   (71100, 71101), (71103, 71104), (71132, 71133), (71219, 71226), (71229, 71229), (71231, 71232),
   (71339, 71339), (71341, 71341), (71344, 71349), (71351, 71351), (71453, 71455), (71458, 71461),
   (71463, 71467), (71727, 71735), (71737, 71738), (71995, 71996), (71998, 71998), (72003, 72003),
   (72148, 72151), (72154, 72155), (72160, 72160), (72193, 72202), (72243, 72248), (72251, 72254),
   (72263, 72263), (72273, 72278), (72281, 72283), (72330, 72342), (72344, 72345), (72752, 72758),
   (72760, 72765), (72767, 72767), (72850, 72871), (72874, 72880), (72882, 72883), (72885, 72886),
   (73009, 73014), (73018, 73018), (73020, 73021), (73023, 73029), (73031, 73031), (73104, 73105),
   (73109, 73109), (73111, 73111), (73459, 73460), (78896, 78904), (92912, 92916), (92976, 92982),
   (92992, 92995), (94031, 94031), (94095, 94111), (94176, 94177), (94179, 94180), (110576, 110579),
   (110581, 110587), (110589, 110590), (113821, 113822), (113824, 113827), (118528, 118573), (118576, 118598),
   (119143, 119145), (119155, 119170), (119173, 119179), (119210, 119213), (119362, 119364), (121344, 121398),
   (121403, 121452), (121461, 121461), (121476, 121476), (121499, 121503), (121505, 121519), (122880, 122886),
   (122888, 122904), (122907, 122913), (122915, 122916), (122918, 122922), (123184, 123197), (123566, 123566),
   (123628, 123631), (125136, 125142), (125252, 125259), (127995, 127999), (917505, 917505), (917536, 917631),
   (917760, 917999)]

/-- Code points with the property `Cased` that are not `Case_Ignorable`. -/
def casedRanges : List (Nat × Nat) :=
  [(65, 90), (97, 122), (170, 170), (181, 181), (186, 186), (192, 214),
   (216, 246), (248, 442), (444, 447), (452, 659), (661, 687), (880, 883),
   (886, 887), (891, 893), (895, 895), (902, 902), (904, 906), (908, 908),
   (910, 929), (931, 1013), (1015, 1153), (1162, 1327), (1329, 1366), (1376, 1416),
   (4256, 4293), (4295, 4295), (4301, 4301), (4304, 4346), (4349, 4351), (5024, 5109),
   (5112, 5117), (7296, 7304), (7312, 7354), (7357, 7359), (7424, 7467), (7531, 7543),
   (7545, 7578), (7680, 7957), (7960, 7965), (7968, 8005), (8008, 8013), (8016, 8023),
   (8025, 8025), (8027, 8027), (8029, 8029), (8031, 8061), (8064, 8116), (8118, 8124),
   (8126, 8126), (8130, 8132), (8134, 8140), (8144, 8147), (8150, 8155), (8160, 8172),
   (8178, 8180), (8182, 8188), (8450, 8450), (8455, 8455), (8458, 8467), (8469, 8469),
   (8473, 8477), (8484, 8484), (8486, 8486), (8488, 8488), (8490, 8493), (8495, 8500),
   (8505, 8505), (8508, 8511), (8517, 8521), (8526, 8526), (8544, 8575), (8579, 8580),
   (9398, 9449), (11264, 11387), (11390, 11492), (11499, 11502), (11506, 11507), (11520, 11557),
   (11559, 11559), (11565, 11565), (42560, 42605), (42624, 42651), (42786, 42863), (42865, 42887),
   (42891, 42894), (42896, 42954), (42960, 42961), (42963, 42963), (42965, 42969), (42997, 42998),
   (43002, 43002), (43824, 43866), (43872, 43880), (43888, 43967), (64256, 64262), (64275, 64279),
   (65313, 65338), (65345, 65370), (66560, 66639), (66736, 66771), (66776, 66811), (66928, 66938),
   (66940, 66954), (66956, 66962), (66964, 66965), (66967, 66977), (66979, 66993), (66995, 67001),
   (67003, 67004), (68736, 68786), (68800, 68850), (71840, 71903), (93760, 93823), (119808, 119892),
   (119894, 119964), (119966, 119967), (119970, 119970), (119973, 119974), (119977, 119980), (119982, 119993),
   (119995, 119995), (119997, 120003), (120005, 120069), (120071, 120074), (120077, 120084), (120086, 120092),
   (120094, 120121), (120123, 120126), (120128, 120132), (120134, 120134), (120138, 120144), (120146, 120485),
   (120488, 120512), (120514, 120538), (120540, 120570), (120572, 120596), (120598, 120628), (120630, 120654),
   (120656, 120686), (120688, 120712), (120714, 120744), (120746, 120770), (120772, 120779), (122624, 122633),
   (122635, 122654), (125184, 125251), (127280, 127305), (127312, 127337), (127344, 127369)]

/-- Whether the run `r` maps the code point `c`. -/
def runCovers (c : Nat) (r : Nat × Nat × Nat × Nat) : Bool :=
  Nat.ble r.1 c && Nat.blt c (r.1 + r.2.2.1 * r.2.2.2) && Nat.beq ((c - r.1) % r.2.2.2) 0

/-- The run of the table that maps `c`, if any. -/
def findRun (c : Nat) : Option (Nat × Nat × Nat × Nat) :=
  match lowerBlocks.find? (fun b => Nat.ble c b.1) with
  | some b => b.2.find? (runCovers c)
  | none => none

/-- Membership in a list of ranges. -/
def inRanges (ranges : List (Nat × Nat)) (c : Nat) : Bool :=
  ranges.any (fun r => Nat.ble r.1 c && Nat.ble c r.2)

/-- The property `Case_Ignorable`. -/
def isCaseIgnorable (c : Nat) : Bool := inRanges caseIgnorableRanges c

/-- The property `Cased`, for a code point that is not `Case_Ignorable` (the only ones it is
asked of: `nextCased` and `followedByCased` test `isCaseIgnorable` first). -/
def isCased (c : Nat) : Bool := inRanges casedRanges c

/-- Lower-case mapping of one code point outside the `Final_Sigma` context: `U+0130` has the
two-point mapping of `SpecialCasing.txt`, the others their simple mapping. -/
def lowerCp (c : Nat) : List Nat :=
  if c = 304 then [105, 775]
  else
    match findRun c with
    | some r => [r.2.1 + (c - r.1)]
    | none => [c]

/-- Whether the nearest code point before the next position that is not case-ignorable is
cased, given that fact for the position of `c`. -/
def nextCased (prevCased : Bool) (c : Nat) : Bool :=
  if isCaseIgnorable c then prevCased else isCased c

/-- Whether the text `s` starts with case-ignorable code points followed by a cased one. -/
def followedByCased : Str → Bool
  | [] => false
  | [a] => if isCaseIgnorable a then false else isCased a
  | a :: b :: rest =>
    if isHighSurrogate a && isLowSurrogate b then
      if isCaseIgnorable (codePointOfPair a b) then followedByCased rest
      else isCased (codePointOfPair a b)
    else if isCaseIgnorable a then followedByCased (b :: rest)
    else isCased a

/-- Lower-casing of a code unit that is not the start of a surrogate pair; `U+03A3` becomes
final sigma `U+03C2` in the `Final_Sigma` context and `U+03C3` elsewhere. -/
def lowerUnit (prevCased : Bool) (a : Nat) (rest : Str) : Str :=
  if a = 931 then
    if prevCased && !followedByCased rest then [962] else [963]
  else lowerCp a

/-- Lower-casing of a surrogate pair. -/
def lowerPair (hi lo : Nat) : Str :=
  (lowerCp (codePointOfPair hi lo)).flatMap encodeCodePoint

/-- Lower-casing of the rest of a string; `prevCased` carries the `Final_Sigma` context. -/
def lowerFrom (prevCased : Bool) : Str → Str
  | [] => []
  | [a] => lowerUnit prevCased a []
  | a :: b :: rest =>
    if isHighSurrogate a && isLowSurrogate b then
      lowerPair a b ++ lowerFrom (nextCased prevCased (codePointOfPair a b)) rest
    else
      lowerUnit prevCased a (b :: rest) ++ lowerFrom (nextCased prevCased a) (b :: rest)

/-- The method `String.prototype.toLowerCase`. -/
def toLowerCase (s : Str) : Str := lowerFrom false s

/-- What the table check asks of a mapping target. -/
def targetOk (d : Nat) : Bool :=
  (findRun d).isNone && !Nat.beq d 304 && !Nat.beq d 931 && !isHighSurrogate d &&
    !isLowSurrogate d && !isWhiteSpace d

/-- What the table check asks of a run. -/
def runOk (r : Nat × Nat × Nat × Nat) : Bool :=
  Nat.blt 0 r.2.2.2 &&
  (List.range r.2.2.1).all (fun k =>
    targetOk (r.2.1 + k * r.2.2.2) &&
    !isHighSurrogate (r.1 + k * r.2.2.2) && !isLowSurrogate (r.1 + k * r.2.2.2) &&
    (Nat.blt (r.1 + k * r.2.2.2) 65536 ||
      (Nat.ble 65536 (r.2.1 + k * r.2.2.2) && Nat.ble (r.2.1 + k * r.2.2.2) 1114111)))

/-- The UTF-16 code units of a literal. -/
def js (s : String) : Str := s.toList.flatMap (fun c => encodeCodePoint c.toNat)

/-! ## Splitting, joining, searching, comparing -/

/-- The call `s.split(sep)` for a one-unit separator: the pieces between separators. -/
def split (sep : Nat) : Str → List Str
  | [] => [[]]
  | c :: cs =>
    if c = sep then [] :: split sep cs
    else
      match split sep cs with
      | [] => [[c]]
      | t :: ts => (c :: t) :: ts

/-- The call `xs.join(sep)`. -/
def join (sep : Str) (xs : List Str) : Str := List.intercalate sep xs

/-- Whether `t` is a prefix of `s` (the test `includes` makes at one position). -/
def startsWith : Str → Str → Bool
  | _, [] => true
  | [], _ :: _ => false
  | a :: s, b :: t => a == b && startsWith s t

/-- The call `s.includes(t)`: `t` occurs in `s` at some position. -/
def includes : Str → Str → Bool
  | [], t => startsWith [] t
  | a :: s, t => startsWith (a :: s) t || includes s t

/-- The comparison `x < y` of two strings: lexicographic on code units. -/
def strLt : Str → Str → Bool
  | _, [] => false
  | [], _ :: _ => true
  | a :: s, b :: t => if a < b then true else if b < a then false else strLt s t

/-! ## Sets and sorting -/

/-- The method `Set.prototype.add` on the insertion-ordered element list. -/
def setAdd {α : Type} [DecidableEq α] (acc : List α) (x : α) : List α :=
  if x ∈ acc then acc else acc ++ [x]

/-- The expression `Array.from(new Set(items))`. -/
def arrayFromSet {α : Type} [DecidableEq α] (items : List α) : List α :=
  items.foldl setAdd []

/-- Stable insertion of `a` into `l`: `a` goes before the first `b` with `cmp a b ≤ 0`. -/
def insertSorted {α : Type} (cmp : α → α → Int) (a : α) : List α → List α
  | [] => [a]
  | b :: l => if cmp a b ≤ 0 then a :: b :: l else b :: insertSorted cmp a l

/-- The call `xs.sort(cmp)`: stable sort by the comparator `cmp`. -/
def jsSort {α : Type} (cmp : α → α → Int) : List α → List α
  | [] => []
  | a :: l => insertSorted cmp a (jsSort cmp l)

/-- The default comparator of `xs.sort()` on strings. -/
def defaultCompare (x y : Str) : Int :=
  if strLt x y then -1 else if strLt y x then 1 else 0

/-! ## Notes -/

/-- A note record. -/
structure Note where
  id : Str
  title : Str
  body : Str
  tags : List Str
  createdAt : Int
  deriving DecidableEq

/-- Argument of `normalizeTags`: absent, a string, or an array of strings. -/
inductive TagSource where
  | missing : TagSource
  | text (s : Str) : TagSource
  | items (xs : List Str) : TagSource
  deriving DecidableEq

/-- The pipeline `Array.from(new Set(items.map(...).filter(Boolean)))` of `normalizeTags`. -/
def normalizeItems (items : List Str) : List Str :=
  arrayFromSet ((items.map (fun tag => toLowerCase (trim tag))).filter (fun t => !t.isEmpty))

/-- The function `normalizeTags` (page.js 9-19). -/
def normalizeTags : TagSource → List Str
  | .missing => []
  | .text s => if s.isEmpty then [] else normalizeItems (split 44 s)
  | .items xs => normalizeItems xs

/-- The function `createNote` (page.js 29-37); `freshId` and `now` come from the runtime. -/
def createNote (freshId : Str) (now : Int) (title body : Str) (tags : TagSource) : Note :=
  { id := freshId
    title := trim title
    body := trim body
    tags := normalizeTags tags
    createdAt := now }

/-- The view `allTags` (page.js 266-270). -/
def allTags (notes : List Note) : List Str :=
  let tagSet := notes.foldl (fun acc note => note.tags.foldl setAdd acc) []
  jsSort defaultCompare tagSet

/-- The `some` test of the text filter (page.js 277-279). -/
def matchesTerm (term : Str) (note : Note) : Bool :=
  [note.title, note.body, join [32] note.tags].any
    (fun field => includes (toLowerCase field) term)

/-- The filter callback of `filteredNotes` (page.js 275-288). -/
def keepNote (term : Str) (activeTags : List Str) (note : Note) : Bool :=
  if term.length > 0 ∧ !matchesTerm term note then false
  else if activeTags.length = 0 then true
  else activeTags.all (fun tag => note.tags.contains tag)

/-- The comparator of `filteredNotes` (page.js 289). -/
def byCreatedAtDesc (a b : Note) : Int := b.createdAt - a.createdAt

/-- The view `filteredNotes` (page.js 272-290). -/
def filteredNotes (notes : List Note) (searchTerm : Str) (activeTags : List Str) : List Note :=
  let term := toLowerCase (trim searchTerm)
  jsSort byCreatedAtDesc (notes.filter (keepNote term activeTags))

/-- The updater of `handleCreate` (page.js 292-294). -/
def handleCreate (note : Note) (prev : List Note) : List Note := note :: prev

/-- The updater of `handleDelete` (page.js 296-298). -/
def handleDelete (id : Str) (prev : List Note) : List Note :=
  prev.filter (fun note => note.id ≠ id)

/-- Duplicates removed, each element kept at its first occurrence (the words of the
specification of the tag normalizer). -/
def keepFirst {α : Type} [DecidableEq α] : List α → List α
  | [] => []
  | x :: xs => x :: (keepFirst xs).filter (fun y => y ≠ x)

/-! ## Sample data -/

/-- Sample note A: older, tagged `work`. -/
def noteA : Note :=
  { id := js "a", title := js "Plan", body := js "Quarterly report",
    tags := [js "work"], createdAt := 1000 }

/-- Sample note B: newer, tagged `home`. -/
def noteB : Note :=
  { id := js "b", title := js "Groceries", body := js "Milk and eggs",
    tags := [js "home"], createdAt := 2000 }

/-- Sample note C: as recent as B, tagged `work` and `urgent`. -/
def noteC : Note :=
  { id := js "c", title := js "Deadline", body := js "Ship it",
    tags := [js "work", js "urgent"], createdAt := 2000 }

/-- Sample note D: a Cyrillic title with a capital letter, tagged `work`. -/
def noteD : Note :=
  { id := js "d", title := js "Привет", body := js "",
    tags := [js "work"], createdAt := 3000 }

/-! ## Sets: insertion order -/

theorem foldl_setAdd_eq {α : Type} [DecidableEq α] (items acc : List α) :
    items.foldl setAdd acc = acc ++ (keepFirst items).filter (fun y => y ∉ acc) := by
  induction items generalizing acc with
  | nil => simp [keepFirst]
  | cons x xs ih =>
    rw [List.foldl_cons, ih]
    by_cases hx : x ∈ acc
    · simp only [setAdd, if_pos hx, keepFirst, List.filter_cons, List.filter_filter]
      simp only [hx, not_true_eq_false, decide_False, Bool.false_eq_true, if_false]
      congr 1
      apply List.filter_congr
      intro y _
      by_cases hy : y ∈ acc
      · simp [hy]
      · have : y ≠ x := fun h => hy (h ▸ hx)
        simp [hy, this]
    · simp only [setAdd, if_neg hx, keepFirst, List.filter_cons, List.filter_filter]
      simp only [hx, not_false_eq_true, decide_True, if_true, List.append_assoc,
        List.singleton_append]
      congr 2
      apply List.filter_congr
      intro y _
      by_cases hy : y ∈ acc <;> by_cases hyx : y = x <;> simp [hy, hyx]

theorem arrayFromSet_eq_keepFirst {α : Type} [DecidableEq α] (items : List α) :
    arrayFromSet items = keepFirst items := by
  simp [arrayFromSet, foldl_setAdd_eq]

theorem mem_keepFirst {α : Type} [DecidableEq α] (x : α) (l : List α) :
    x ∈ keepFirst l ↔ x ∈ l := by
  induction l with
  | nil => simp [keepFirst]
  | cons a l ih =>
    simp only [keepFirst, List.mem_cons, List.mem_filter, ih]
    by_cases h : x = a <;> simp [h]

theorem nodup_keepFirst {α : Type} [DecidableEq α] (l : List α) : (keepFirst l).Nodup := by
  induction l with
  | nil => simp [keepFirst]
  | cons a l ih =>
    simp only [keepFirst, List.nodup_cons, List.mem_filter]
    exact ⟨by simp, ih.filter _⟩

theorem keepFirst_sublist {α : Type} [DecidableEq α] (l : List α) :
    List.Sublist (keepFirst l) l := by
  induction l with
  | nil => simp [keepFirst]
  | cons a l ih =>
    simp only [keepFirst]
    exact ((List.filter_sublist _).trans ih).cons₂ a

theorem indexOf_cons_of_ne {α : Type} [BEq α] [LawfulBEq α] (a y : α) (l : List α)
    (h : y ≠ a) : (a :: l).indexOf y = l.indexOf y + 1 := by
  have hb : (a == y) = false := by
    rw [beq_eq_false_iff_ne]; exact Ne.symm h
  rw [List.indexOf_cons, hb]; rfl

theorem pairwise_indexOf_keepFirst {α : Type} [DecidableEq α] [BEq α] [LawfulBEq α]
    (l : List α) : (keepFirst l).Pairwise (fun x y => l.indexOf x < l.indexOf y) := by
  induction l with
  | nil => simp [keepFirst]
  | cons a l ih =>
    simp only [keepFirst, List.pairwise_cons]
    constructor
    · intro y hy
      have hya : y ≠ a := by simpa using (List.mem_filter.mp hy).2
      have h0 : (a :: l).indexOf a = 0 := by
        rw [List.indexOf_cons, beq_self_eq_true]; rfl
      rw [h0, indexOf_cons_of_ne a y l hya]
      exact Nat.succ_pos _
    · refine (ih.sublist (List.filter_sublist _)).imp_of_mem ?_
      intro x y hx hy hxy
      have hxa : x ≠ a := by simpa using (List.mem_filter.mp hx).2
      have hya : y ≠ a := by simpa using (List.mem_filter.mp hy).2
      rw [indexOf_cons_of_ne a x l hxa, indexOf_cons_of_ne a y l hya]
      exact Nat.succ_lt_succ hxy

/-! ## Strings: trimming, lower-casing, substring search, comparison -/

theorem trim_eq_nil_iff (s : Str) : trim s = [] ↔ ∀ c ∈ s, isWhiteSpace c = true := by
  unfold trim
  rw [List.rdropWhile_eq_nil_iff]
  constructor
  · intro h
    have hnil : s.dropWhile isWhiteSpace = [] := by
      cases hd : s.dropWhile isWhiteSpace with
      | nil => rfl
      | cons c r =>
        have h1 := List.head?_dropWhile_not isWhiteSpace s
        rw [hd] at h1 h
        simp only [List.head?_cons] at h1
        have h2 := h c (List.mem_cons_self c r)
        rw [h1] at h2
        exact absurd h2 (by decide)
    exact List.dropWhile_eq_nil_iff.mp hnil
  · intro h c hc
    exact h c ((List.dropWhile_suffix isWhiteSpace).subset hc)

theorem trim_head_not_ws (s : Str) (c : Nat) (h : (trim s).head? = some c) :
    isWhiteSpace c = false := by
  obtain ⟨t, ht⟩ : trim s <+: s.dropWhile isWhiteSpace := List.rdropWhile_prefix _ _
  have h1 := List.head?_dropWhile_not isWhiteSpace s
  cases hts : trim s with
  | nil => rw [hts] at h; simp at h
  | cons a r =>
    rw [hts] at h ht
    simp only [List.head?_cons, Option.some.injEq] at h
    rw [← ht] at h1
    simp only [List.cons_append, List.head?_cons] at h1
    rw [← h]; exact h1

theorem trim_getLast_not_ws (s : Str) (c : Nat) (h : (trim s).getLast? = some c) :
    isWhiteSpace c = false := by
  have hne : trim s ≠ [] := by
    intro h0; rw [h0] at h; simp at h
  have h1 := List.rdropWhile_last_not isWhiteSpace (s.dropWhile isWhiteSpace) hne
  rw [List.getLast?_eq_getLast _ hne] at h
  simp only [Option.some.injEq] at h
  have h2 : (trim s).getLast hne = c := h
  unfold trim at h2
  rw [h2] at h1
  simpa using h1

theorem trim_eq_self (x : Str) (hhead : ∀ c, x.head? = some c → isWhiteSpace c = false)
    (hlast : ∀ c, x.getLast? = some c → isWhiteSpace c = false) : trim x = x := by
  have h1 : x.dropWhile isWhiteSpace = x := by
    cases x with
    | nil => rfl
    | cons a r => simp [List.dropWhile_cons, hhead a rfl]
  unfold trim
  rw [h1, List.rdropWhile_eq_self_iff]
  intro hl
  have h2 := hlast (x.getLast hl) (List.getLast?_eq_getLast _ hl)
  simp [h2]

theorem startsWith_iff (s t : Str) : startsWith s t = true ↔ t <+: s := by
  induction t generalizing s with
  | nil => simp [startsWith]
  | cons b t ih =>
    cases s with
    | nil => simp [startsWith]
    | cons a s =>
      simp only [startsWith, Bool.and_eq_true, beq_iff_eq, ih, List.cons_prefix_cons]
      constructor
      · rintro ⟨h1, h2⟩; exact ⟨h1.symm, h2⟩
      · rintro ⟨h1, h2⟩; exact ⟨h1.symm, h2⟩

theorem includes_iff (s t : Str) : includes s t = true ↔ t <:+: s := by
  induction s with
  | nil =>
    simp only [includes, startsWith_iff, List.prefix_nil, List.infix_nil]
  | cons a s ih =>
    simp only [includes, Bool.or_eq_true, startsWith_iff, ih, List.infix_cons_iff]

theorem strLt_irrefl (a : Str) : strLt a a = false := by
  induction a with
  | nil => rfl
  | cons x a ih => simp [strLt, ih]

theorem strLt_trans (a b c : Str) (hab : strLt a b = true) (hbc : strLt b c = true) :
    strLt a c = true := by
  induction a generalizing b c with
  | nil =>
    cases c with
    | nil => cases b <;> simp [strLt] at hbc
    | cons z c => rfl
  | cons x a ih =>
    cases b with
    | nil => simp [strLt] at hab
    | cons y b =>
      cases c with
      | nil => simp [strLt] at hbc
      | cons z c =>
        simp only [strLt] at hab hbc ⊢
        split_ifs at hab hbc ⊢ <;> first
          | rfl
          | omega
          | exact ih b c hab hbc

theorem strLt_asymm (a b : Str) (hab : strLt a b = true) : strLt b a = false := by
  by_contra h
  have h1 : strLt b a = true := by simpa using h
  have h2 := strLt_trans a b a hab h1
  rw [strLt_irrefl] at h2
  exact absurd h2 (by decide)

theorem strLt_connected (a b : Str) (hab : strLt a b = false) (hba : strLt b a = false) :
    a = b := by
  induction a generalizing b with
  | nil =>
    cases b with
    | nil => rfl
    | cons y b => simp [strLt] at hab
  | cons x a ih =>
    cases b with
    | nil => simp [strLt] at hba
    | cons y b =>
      simp only [strLt] at hab hba
      split_ifs at hab hba
      have hxy : x = y := by omega
      rw [hxy, ih b hab hba]

theorem split_ne_nil (sep : Nat) (s : Str) : split sep s ≠ [] := by
  cases s with
  | nil => simp [split]
  | cons c cs =>
    simp only [split]
    split_ifs
    · simp
    · split <;> simp

theorem join_split (sep : Nat) (s : Str) : join [sep] (split sep s) = s := by
  induction s with
  | nil => simp [split, join, List.intercalate]
  | cons c cs ih =>
    simp only [split]
    split_ifs with h
    · obtain ⟨t, ts, hts⟩ := List.exists_cons_of_ne_nil (split_ne_nil sep cs)
      rw [hts] at ih ⊢
      simp only [join, List.intercalate, List.intersperse, List.flatten_cons] at ih ⊢
      rw [ih, h]; rfl
    · obtain ⟨t, ts, hts⟩ := List.exists_cons_of_ne_nil (split_ne_nil sep cs)
      rw [hts] at ih ⊢
      cases ts with
      | nil =>
        simp only [join, List.intercalate, List.intersperse, List.flatten_cons] at ih ⊢
        rw [List.cons_append, ih]
      | cons u us =>
        simp only [join, List.intercalate, List.intersperse, List.flatten_cons] at ih ⊢
        rw [List.cons_append, ih]

theorem split_no_sep (sep : Nat) (s : Str) : ∀ t ∈ split sep s, sep ∉ t := by
  induction s with
  | nil => simp [split]
  | cons c cs ih =>
    simp only [split]
    split_ifs with h
    · intro t ht
      rcases List.mem_cons.mp ht with h1 | h1
      · rw [h1]; simp
      · exact ih t h1
    · obtain ⟨t, ts, hts⟩ := List.exists_cons_of_ne_nil (split_ne_nil sep cs)
      rw [hts] at ih ⊢
      intro u hu
      rcases List.mem_cons.mp hu with h1 | h1
      · rw [h1]
        intro hmem
        rcases List.mem_cons.mp hmem with h2 | h2
        · exact h h2.symm
        · exact ih t (List.mem_cons_self _ _) h2
      · exact ih u (List.mem_cons_of_mem _ h1)

/-! ## Lower-casing: the case table -/

theorem lowerBlocks_ok : lowerBlocks.all (fun b => b.2.all runOk) = true := by decide!

theorem isHighSurrogate_iff (c : Nat) : isHighSurrogate c = true ↔ 55296 ≤ c ∧ c ≤ 56319 := by
  simp only [isHighSurrogate, Bool.and_eq_true, Nat.ble_eq]

theorem isLowSurrogate_iff (c : Nat) : isLowSurrogate c = true ↔ 56320 ≤ c ∧ c ≤ 57343 := by
  simp only [isLowSurrogate, Bool.and_eq_true, Nat.ble_eq]

theorem isWhiteSpace_not_high (c : Nat) (h : isWhiteSpace c = true) :
    isHighSurrogate c = false := by
  rw [Bool.eq_false_iff]
  intro hh
  rw [isHighSurrogate_iff] at hh
  simp only [isWhiteSpace, Bool.or_eq_true, beq_iff_eq, Bool.and_eq_true, decide_eq_true_eq] at h
  omega

theorem isWhiteSpace_not_low (c : Nat) (h : isWhiteSpace c = true) :
    isLowSurrogate c = false := by
  rw [Bool.eq_false_iff]
  intro hh
  rw [isLowSurrogate_iff] at hh
  simp only [isWhiteSpace, Bool.or_eq_true, beq_iff_eq, Bool.and_eq_true, decide_eq_true_eq] at h
  omega

theorem findRun_spec (c : Nat) (r : Nat × Nat × Nat × Nat) (h : findRun c = some r) :
    runOk r = true ∧ runCovers c r = true := by
  unfold findRun at h
  cases hb : lowerBlocks.find? (fun b => Nat.ble c b.1) with
  | none => simp only [hb] at h; cases h
  | some b =>
    simp only [hb] at h
    have hbm : b ∈ lowerBlocks := List.mem_of_find?_eq_some hb
    have hrm : r ∈ b.2 := List.mem_of_find?_eq_some h
    have hall := List.all_eq_true.mp lowerBlocks_ok b hbm
    exact ⟨List.all_eq_true.mp hall r hrm, List.find?_some h⟩

theorem runCovers_spec (c : Nat) (r : Nat × Nat × Nat × Nat) (h : runCovers c r = true) :
    ∃ k, k < r.2.2.1 ∧ c = r.1 + k * r.2.2.2 := by
  simp only [runCovers, Bool.and_eq_true, Nat.ble_eq, Nat.blt_eq] at h
  obtain ⟨⟨h1, h2⟩, h3'⟩ := h
  have h3 := Nat.eq_of_beq_eq_true h3'
  refine ⟨(c - r.1) / r.2.2.2, ?_, ?_⟩
  · apply Nat.div_lt_of_lt_mul
    rw [Nat.mul_comm]
    omega
  · have := Nat.div_add_mod (c - r.1) r.2.2.2
    rw [h3, Nat.add_zero, Nat.mul_comm] at this
    omega

theorem runOk_spec (r : Nat × Nat × Nat × Nat) (h : runOk r = true) (k : Nat)
    (hk : k < r.2.2.1) :
    targetOk (r.2.1 + k * r.2.2.2) = true ∧
    isHighSurrogate (r.1 + k * r.2.2.2) = false ∧
    isLowSurrogate (r.1 + k * r.2.2.2) = false ∧
    (r.1 + k * r.2.2.2 < 65536 ∨
      (65536 ≤ r.2.1 + k * r.2.2.2 ∧ r.2.1 + k * r.2.2.2 ≤ 1114111)) := by
  simp only [runOk, Bool.and_eq_true, List.all_eq_true, List.mem_range, Bool.or_eq_true,
    Nat.ble_eq, Nat.blt_eq, Bool.not_eq_true'] at h
  obtain ⟨⟨⟨h1, h2⟩, h3⟩, h4⟩ := h.2 k hk
  exact ⟨h1, h2, h3, h4⟩

theorem targetOk_spec (d : Nat) (h : targetOk d = true) :
    lowerCp d = [d] ∧ d ≠ 931 ∧ isHighSurrogate d = false ∧ isLowSurrogate d = false ∧
      isWhiteSpace d = false := by
  simp only [targetOk, Bool.and_eq_true, Option.isNone_iff_eq_none, Bool.not_eq_true'] at h
  obtain ⟨⟨⟨⟨⟨h1, h2⟩, h3⟩, h4⟩, h5⟩, h6⟩ := h
  refine ⟨?_, Nat.ne_of_beq_eq_false h3, h4, h5, h6⟩
  simp only [lowerCp, h1, if_neg (Nat.ne_of_beq_eq_false h2)]

theorem lowerCp_ne_nil (a : Nat) : lowerCp a ≠ [] := by
  unfold lowerCp
  split_ifs
  · simp
  · split <;> simp

theorem lowerCp_spec (a d : Nat) (h : d ∈ lowerCp a) :
    (lowerCp a = [a] ∧ d = a) ∨
    (targetOk d = true ∧ isHighSurrogate a = false ∧ isLowSurrogate a = false ∧
      (a < 65536 ∨ (lowerCp a = [d] ∧ 65536 ≤ d ∧ d ≤ 1114111))) := by
  by_cases h304 : a = 304
  · right
    subst h304
    have hd : d = 105 ∨ d = 775 := by simpa [lowerCp] using h
    refine ⟨?_, by decide, by decide, Or.inl (by decide)⟩
    rcases hd with hd | hd <;> subst hd <;> decide!
  · cases hf : findRun a with
    | none =>
      have hl : lowerCp a = [a] := by simp only [lowerCp, hf, if_neg h304]
      left
      rw [hl] at h
      exact ⟨hl, by simpa using h⟩
    | some r =>
      have hl : lowerCp a = [r.2.1 + (a - r.1)] := by simp only [lowerCp, hf, if_neg h304]
      obtain ⟨hok, hcov⟩ := findRun_spec a r hf
      obtain ⟨k, hk, hak⟩ := runCovers_spec a r hcov
      obtain ⟨h1, h2, h3, h4⟩ := runOk_spec r hok k hk
      have hd : d = r.2.1 + k * r.2.2.2 := by
        rw [hl] at h
        have : d = r.2.1 + (a - r.1) := by simpa using h
        rw [this, hak]; omega
      right
      rw [← hak] at h2 h3 h4
      rw [← hd] at h1 h4
      refine ⟨h1, h2, h3, ?_⟩
      rcases h4 with h4 | h4
      · exact Or.inl h4
      · refine Or.inr ⟨?_, h4⟩
        rw [hl, hd, hak]; congr 1; omega

theorem lowerCp_surrogate (a : Nat)
    (h : isHighSurrogate a = true ∨ isLowSurrogate a = true) : lowerCp a = [a] := by
  obtain ⟨d, l, hdl⟩ := List.exists_cons_of_ne_nil (lowerCp_ne_nil a)
  have hd : d ∈ lowerCp a := by rw [hdl]; exact List.mem_cons_self d l
  rcases lowerCp_spec a d hd with h1 | h1
  · exact h1.1
  · rcases h with h | h
    · rw [h1.2.1] at h; cases h
    · rw [h1.2.2.1] at h; cases h

theorem lowerUnit_ne_nil (p : Bool) (a : Nat) (rest : Str) : lowerUnit p a rest ≠ [] := by
  unfold lowerUnit
  split_ifs
  · simp
  · simp
  · exact lowerCp_ne_nil a

theorem lowerUnit_spec (p : Bool) (a : Nat) (rest : Str) (d : Nat)
    (h : d ∈ lowerUnit p a rest) :
    (lowerCp a = [a] ∧ a ≠ 931 ∧ d = a ∧ lowerUnit p a rest = [a]) ∨ targetOk d = true := by
  unfold lowerUnit at h ⊢
  by_cases ha : a = 931
  · right
    simp only [if_pos ha] at h
    split_ifs at h
    · have : d = 962 := by simpa using h
      subst this; decide!
    · have : d = 963 := by simpa using h
      subst this; decide!
  · simp only [if_neg ha] at h ⊢
    rcases lowerCp_spec a d h with h1 | h1
    · exact Or.inl ⟨h1.1, ha, h1.2, h1.1⟩
    · exact Or.inr h1.1

/-! ## Lower-casing: strings -/

theorem lowerPair_spec (a b : Nat) (ha : isHighSurrogate a = true)
    (hb : isLowSurrogate b = true) :
    ∃ h l, lowerPair a b = [h, l] ∧ isHighSurrogate h = true ∧ isLowSurrogate l = true ∧
      lowerPair h l = [h, l] := by
  rw [isHighSurrogate_iff] at ha
  rw [isLowSurrogate_iff] at hb
  have hcp1 : 65536 ≤ codePointOfPair a b := by unfold codePointOfPair; omega
  have hcp2 : codePointOfPair a b ≤ 1114111 := by unfold codePointOfPair; omega
  have hex : ∃ d, lowerCp (codePointOfPair a b) = [d] ∧ lowerCp d = [d] ∧ 65536 ≤ d ∧
      d ≤ 1114111 := by
    obtain ⟨d, l, hdl⟩ := List.exists_cons_of_ne_nil (lowerCp_ne_nil (codePointOfPair a b))
    have hd : d ∈ lowerCp (codePointOfPair a b) := by rw [hdl]; exact List.mem_cons_self d l
    rcases lowerCp_spec _ d hd with h1 | h1
    · refine ⟨codePointOfPair a b, h1.1, h1.1, hcp1, hcp2⟩
    · rcases h1.2.2.2 with h2 | h2
      · omega
      · exact ⟨d, h2.1, (targetOk_spec d h1.1).1, h2.2⟩
  obtain ⟨d, hd1, hd2, hd3, hd4⟩ := hex
  have henc : encodeCodePoint d =
      [55296 + (d - 65536) / 1024, 56320 + (d - 65536) % 1024] := by
    unfold encodeCodePoint
    rw [if_neg (by omega)]
  have hback : codePointOfPair (55296 + (d - 65536) / 1024) (56320 + (d - 65536) % 1024) = d := by
    unfold codePointOfPair
    omega
  refine ⟨55296 + (d - 65536) / 1024, 56320 + (d - 65536) % 1024, ?_, ?_, ?_, ?_⟩
  · simp only [lowerPair, hd1, List.flatMap_cons, List.flatMap_nil, List.append_nil, henc]
  · rw [isHighSurrogate_iff]; omega
  · rw [isLowSurrogate_iff]; omega
  · simp only [lowerPair, hback, hd2, List.flatMap_cons, List.flatMap_nil, List.append_nil, henc]

theorem lowerFrom_eq_nil (p : Bool) (s : Str) (h : lowerFrom p s = []) : s = [] := by
  match s with
  | [] => rfl
  | [a] =>
    simp only [lowerFrom] at h
    exact absurd h (lowerUnit_ne_nil _ _ _)
  | a :: b :: rest =>
    simp only [lowerFrom] at h
    split_ifs at h with hp
    · simp only [Bool.and_eq_true] at hp
      obtain ⟨x, y, hxy, _⟩ := lowerPair_spec a b hp.1 hp.2
      rw [hxy] at h
      simp at h
    · exact absurd (List.append_eq_nil.mp h).1 (lowerUnit_ne_nil _ _ _)

theorem stable_cons_plain (d : Nat) (R : Str) (hd : targetOk d = true)
    (hR : ∀ q, lowerFrom q R = R) : ∀ q, lowerFrom q (d :: R) = d :: R := by
  obtain ⟨h1, h2, h3, _, _⟩ := targetOk_spec d hd
  intro q
  cases R with
  | nil => simp only [lowerFrom, lowerUnit, if_neg h2, h1]
  | cons b R' =>
    simp only [lowerFrom, h3, Bool.false_and, Bool.false_eq_true, if_false, lowerUnit,
      if_neg h2, h1]
    rw [hR]; rfl

theorem stable_append_plain (C R : Str) (hC : ∀ d ∈ C, targetOk d = true)
    (hR : ∀ q, lowerFrom q R = R) : ∀ q, lowerFrom q (C ++ R) = C ++ R := by
  induction C with
  | nil => simpa using hR
  | cons d C ih =>
    have h1 := ih (fun x hx => hC x (List.mem_cons_of_mem _ hx))
    exact stable_cons_plain d (C ++ R) (hC d (List.mem_cons_self _ _)) h1

theorem stable_cons_fixed (a : Nat) (R : Str) (ha : lowerCp a = [a]) (h931 : a ≠ 931)
    (hpair : ∀ b, R.head? = some b → (isHighSurrogate a && isLowSurrogate b) = false)
    (hR : ∀ q, lowerFrom q R = R) : ∀ q, lowerFrom q (a :: R) = a :: R := by
  intro q
  cases R with
  | nil => simp only [lowerFrom, lowerUnit, if_neg h931, ha]
  | cons b R' =>
    simp only [lowerFrom, hpair b rfl, Bool.false_eq_true, if_false, lowerUnit,
      if_neg h931, ha]
    rw [hR]; rfl

theorem stable_pair (h l : Nat) (R : Str) (hh : isHighSurrogate h = true)
    (hl : isLowSurrogate l = true) (hp : lowerPair h l = [h, l])
    (hR : ∀ q, lowerFrom q R = R) : ∀ q, lowerFrom q (h :: l :: R) = h :: l :: R := by
  intro q
  simp only [lowerFrom, hh, hl, Bool.and_self, if_true, hp]
  rw [hR]; rfl

theorem lowerFrom_head (p : Bool) (s : Str) (d : Nat)
    (h : (lowerFrom p s).head? = some d) (hok : targetOk d = false)
    (hhigh : isHighSurrogate d = false) : s.head? = some d := by
  have hunit : ∀ (a : Nat) (rest R : Str),
      (lowerUnit p a rest ++ R).head? = some d → a = d := by
    intro a rest R hh
    obtain ⟨c, C, hC⟩ := List.exists_cons_of_ne_nil (lowerUnit_ne_nil p a rest)
    rw [hC] at hh
    simp only [List.cons_append, List.head?_cons, Option.some.injEq] at hh
    have hmem : d ∈ lowerUnit p a rest := by rw [hC, ← hh]; exact List.mem_cons_self _ _
    rcases lowerUnit_spec p a rest d hmem with h1 | h1
    · exact h1.2.2.1.symm
    · rw [h1] at hok; cases hok
  match s with
  | [] => simp [lowerFrom] at h
  | [a] =>
    simp only [lowerFrom] at h
    have := hunit a [] [] (by simpa using h)
    simp [this]
  | a :: b :: rest =>
    simp only [lowerFrom] at h
    split_ifs at h with hp
    · simp only [Bool.and_eq_true] at hp
      obtain ⟨x, y, hxy, hx, _⟩ := lowerPair_spec a b hp.1 hp.2
      rw [hxy] at h
      simp only [List.cons_append, List.head?_cons, Option.some.injEq] at h
      rw [h, hhigh] at hx
      cases hx
    · have := hunit a _ _ h
      simp [this]

theorem lowerFrom_getLast : ∀ (s : Str) (p : Bool) (d : Nat),
    (lowerFrom p s).getLast? = some d → targetOk d = false → isLowSurrogate d = false →
      s.getLast? = some d
  | [], p, d, h, _, _ => by simp [lowerFrom] at h
  | [a], p, d, h, hok, _ => by
    simp only [lowerFrom] at h
    have hmem : d ∈ lowerUnit p a [] := List.mem_of_getLast?_eq_some h
    rcases lowerUnit_spec p a [] d hmem with h1 | h1
    · simp [h1.2.2.1]
    · rw [h1] at hok; cases hok
  | a :: b :: rest, p, d, h, hok, hlow => by
    simp only [lowerFrom] at h
    split_ifs at h with hp
    · simp only [Bool.and_eq_true] at hp
      obtain ⟨x, y, hxy, _, hy, _⟩ := lowerPair_spec a b hp.1 hp.2
      rw [hxy] at h
      cases rest with
      | nil =>
        simp only [lowerFrom, List.append_nil] at h
        have : y = d := by simpa using h
        rw [this, hlow] at hy
        cases hy
      | cons c rest' =>
        have hne : lowerFrom (nextCased p (codePointOfPair a b)) (c :: rest') ≠ [] :=
          fun h0 => by cases lowerFrom_eq_nil _ _ h0
        rw [List.getLast?_append_of_ne_nil _ hne] at h
        have ih := lowerFrom_getLast (c :: rest') _ d h hok hlow
        simpa using ih
    · have hne : lowerFrom (nextCased p a) (b :: rest) ≠ [] :=
        fun h0 => by cases lowerFrom_eq_nil _ _ h0
      rw [List.getLast?_append_of_ne_nil _ hne] at h
      have ih := lowerFrom_getLast (b :: rest) _ d h hok hlow
      simpa using ih

theorem lowerFrom_stable : ∀ (s : Str) (p q : Bool),
    lowerFrom q (lowerFrom p s) = lowerFrom p s
  | [], p, q => by simp [lowerFrom]
  | [a], p, q => by
    simp only [lowerFrom]
    by_cases hfix : lowerUnit p a [] = [a] ∧ lowerCp a = [a] ∧ a ≠ 931
    · rw [hfix.1]
      simp only [lowerFrom, lowerUnit, if_neg hfix.2.2, hfix.2.1]
    · have hC : ∀ d ∈ lowerUnit p a [], targetOk d = true := by
        intro d hd
        rcases lowerUnit_spec p a [] d hd with h1 | h1
        · exact absurd ⟨h1.2.2.2, h1.1, h1.2.1⟩ hfix
        · exact h1
      have := stable_append_plain (lowerUnit p a []) [] hC (fun _ => rfl) q
      simpa using this
  | a :: b :: rest, p, q => by
    simp only [lowerFrom]
    split_ifs with hp
    · simp only [Bool.and_eq_true] at hp
      obtain ⟨x, y, hxy, hx, hy, hfix⟩ := lowerPair_spec a b hp.1 hp.2
      rw [hxy]
      exact stable_pair x y _ hx hy hfix (fun q' => lowerFrom_stable rest _ q') q
    · have hR : ∀ q', lowerFrom q' (lowerFrom (nextCased p a) (b :: rest)) =
          lowerFrom (nextCased p a) (b :: rest) :=
        fun q' => lowerFrom_stable (b :: rest) _ q'
      by_cases hfix : lowerUnit p a (b :: rest) = [a] ∧ lowerCp a = [a] ∧ a ≠ 931
      · rw [hfix.1]
        refine stable_cons_fixed a _ hfix.2.1 hfix.2.2 ?_ hR q
        intro c hc
        by_cases hlow : isLowSurrogate c = true
        · have hcok : targetOk c = false := by
            rw [Bool.eq_false_iff]
            intro hcok
            rw [(targetOk_spec c hcok).2.2.2.1] at hlow
            cases hlow
          have hchigh : isHighSurrogate c = false := by
            rw [Bool.eq_false_iff]
            intro hh
            rw [isHighSurrogate_iff] at hh
            rw [isLowSurrogate_iff] at hlow
            omega
          have hbc := lowerFrom_head _ _ c hc hcok hchigh
          have hbc' : b = c := by simpa using hbc
          rw [← hbc']
          simpa using hp
        · have : isLowSurrogate c = false := by simpa using hlow
          simp [this]
      · have hC : ∀ d ∈ lowerUnit p a (b :: rest), targetOk d = true := by
          intro d hd
          rcases lowerUnit_spec p a (b :: rest) d hd with h1 | h1
          · exact absurd ⟨h1.2.2.2, h1.1, h1.2.1⟩ hfix
          · exact h1
        exact stable_append_plain _ _ hC hR q

theorem toLowerCase_idem (s : Str) : toLowerCase (toLowerCase s) = toLowerCase s :=
  lowerFrom_stable s false false

theorem toLowerCase_head_not_ws (s : Str) (d : Nat) (h : (toLowerCase s).head? = some d)
    (hws : isWhiteSpace d = true) : s.head? = some d := by
  refine lowerFrom_head false s d h ?_ (isWhiteSpace_not_high d hws)
  rw [Bool.eq_false_iff]
  intro hok
  rw [(targetOk_spec d hok).2.2.2.2] at hws
  cases hws

theorem toLowerCase_getLast_not_ws (s : Str) (d : Nat)
    (h : (toLowerCase s).getLast? = some d) (hws : isWhiteSpace d = true) :
    s.getLast? = some d := by
  refine lowerFrom_getLast s false d h ?_ (isWhiteSpace_not_low d hws)
  rw [Bool.eq_false_iff]
  intro hok
  rw [(targetOk_spec d hok).2.2.2.2] at hws
  cases hws

/-! ## Sorting -/

theorem perm_insertSorted {α : Type} (cmp : α → α → Int) (a : α) (l : List α) :
    (insertSorted cmp a l).Perm (a :: l) := by
  induction l with
  | nil => simp [insertSorted]
  | cons b l ih =>
    simp only [insertSorted]
    split_ifs
    · exact List.Perm.refl _
    · exact (ih.cons b).trans (List.Perm.swap a b l)

theorem jsSort_perm {α : Type} (cmp : α → α → Int) (l : List α) : (jsSort cmp l).Perm l := by
  induction l with
  | nil => simp [jsSort]
  | cons a l ih =>
    simp only [jsSort]
    exact (perm_insertSorted cmp a _).trans (ih.cons a)

theorem mem_jsSort {α : Type} (cmp : α → α → Int) (l : List α) (x : α) :
    x ∈ jsSort cmp l ↔ x ∈ l :=
  (jsSort_perm cmp l).mem_iff

theorem pairwise_insertSorted {α : Type} (cmp : α → α → Int)
    (htot : ∀ a b, cmp a b ≤ 0 ∨ cmp b a ≤ 0)
    (htr : ∀ a b c, cmp a b ≤ 0 → cmp b c ≤ 0 → cmp a c ≤ 0)
    (a : α) (l : List α) (hl : l.Pairwise (fun x y => cmp x y ≤ 0)) :
    (insertSorted cmp a l).Pairwise (fun x y => cmp x y ≤ 0) := by
  induction l with
  | nil => simp [insertSorted]
  | cons b l ih =>
    rw [List.pairwise_cons] at hl
    simp only [insertSorted]
    split_ifs with h
    · refine List.pairwise_cons.mpr ⟨?_, List.pairwise_cons.mpr hl⟩
      intro y hy
      rcases List.mem_cons.mp hy with h1 | h1
      · rw [h1]; exact h
      · exact htr a b y h (hl.1 y h1)
    · refine List.pairwise_cons.mpr ⟨?_, ih hl.2⟩
      intro y hy
      rcases List.mem_cons.mp ((perm_insertSorted cmp a l).mem_iff.mp hy) with h1 | h1
      · rw [h1]; exact (htot a b).resolve_left h
      · exact hl.1 y h1

theorem jsSort_sorted {α : Type} (cmp : α → α → Int)
    (htot : ∀ a b, cmp a b ≤ 0 ∨ cmp b a ≤ 0)
    (htr : ∀ a b c, cmp a b ≤ 0 → cmp b c ≤ 0 → cmp a c ≤ 0)
    (l : List α) : (jsSort cmp l).Pairwise (fun x y => cmp x y ≤ 0) := by
  induction l with
  | nil => simp [jsSort]
  | cons a l ih => exact pairwise_insertSorted cmp htot htr a _ ih

theorem filter_insertSorted {α : Type} (cmp : α → α → Int) (p : α → Bool)
    (hp : ∀ a b, p a = true → p b = true → cmp a b ≤ 0) (a : α) (l : List α) :
    (insertSorted cmp a l).filter p = (a :: l).filter p := by
  induction l with
  | nil => simp [insertSorted]
  | cons b l ih =>
    simp only [insertSorted]
    split_ifs with h
    · rfl
    · rw [List.filter_cons, ih]
      by_cases hb : p b = true
      · have ha : p a = false := by
          by_contra hne
          exact h (hp a b (by simpa using hne) hb)
        simp [List.filter_cons, ha, hb]
      · simp [List.filter_cons, hb]

theorem filter_jsSort {α : Type} (cmp : α → α → Int) (p : α → Bool)
    (hp : ∀ a b, p a = true → p b = true → cmp a b ≤ 0) (l : List α) :
    (jsSort cmp l).filter p = l.filter p := by
  induction l with
  | nil => simp [jsSort]
  | cons a l ih =>
    simp only [jsSort]
    rw [filter_insertSorted cmp p hp, List.filter_cons, List.filter_cons, ih]

/-! ## The tag normalizer -/

theorem keepFirst_filter {α : Type} [DecidableEq α] (p : α → Bool) (l : List α) :
    keepFirst (l.filter p) = (keepFirst l).filter p := by
  induction l with
  | nil => simp [keepFirst]
  | cons a l ih =>
    by_cases ha : p a = true
    · simp only [List.filter_cons, ha, if_true, keepFirst, ih, List.filter_filter]
      congr 1
      apply List.filter_congr
      intro y _
      exact Bool.and_comm _ _
    · have ha0 : p a = false := by simpa using ha
      simp only [List.filter_cons, ha0, Bool.false_eq_true, if_false, keepFirst, ih,
        List.filter_filter]
      apply List.filter_congr
      intro y _
      by_cases hy : p y = true
      · have hya : y ≠ a := fun h => ha (h ▸ hy)
        simp [hy, hya]
      · simp [hy]

theorem normalizeItems_eq (items : List Str) :
    normalizeItems items =
      (keepFirst (items.map (fun tag => toLowerCase (trim tag)))).filter (fun t => !t.isEmpty) := by
  rw [normalizeItems, arrayFromSet_eq_keepFirst, keepFirst_filter]

theorem mem_normalizeItems (items : List Str) (x : Str) :
    x ∈ normalizeItems items ↔
      x ∈ items.map (fun tag => toLowerCase (trim tag)) ∧ x ≠ [] := by
  rw [normalizeItems_eq, List.mem_filter, mem_keepFirst]
  cases x <;> simp

theorem nodup_normalizeItems (items : List Str) : (normalizeItems items).Nodup := by
  rw [normalizeItems_eq]
  exact (nodup_keepFirst _).filter _

theorem normalizeItems_canonical (items : List Str) (x : Str) (hx : x ∈ normalizeItems items) :
    x ≠ [] ∧ (∀ c, x.head? = some c → isWhiteSpace c = false) ∧
      (∀ c, x.getLast? = some c → isWhiteSpace c = false) ∧ trim x = x ∧
      toLowerCase x = x := by
  obtain ⟨hmem, hne⟩ := (mem_normalizeItems items x).mp hx
  obtain ⟨tag, _, rfl⟩ := List.mem_map.mp hmem
  have hhead : ∀ c, (toLowerCase (trim tag)).head? = some c → isWhiteSpace c = false := by
    intro c hc
    by_contra hws
    have hws1 : isWhiteSpace c = true := by simpa using hws
    have h1 := trim_head_not_ws tag c (toLowerCase_head_not_ws _ c hc hws1)
    rw [h1] at hws1
    cases hws1
  have hlast : ∀ c, (toLowerCase (trim tag)).getLast? = some c → isWhiteSpace c = false := by
    intro c hc
    by_contra hws
    have hws1 : isWhiteSpace c = true := by simpa using hws
    have h1 := trim_getLast_not_ws tag c (toLowerCase_getLast_not_ws _ c hc hws1)
    rw [h1] at hws1
    cases hws1
  exact ⟨hne, hhead, hlast, trim_eq_self _ hhead hlast, toLowerCase_idem _⟩

/-- C4: for every tag input (absent, a comma-separated string, or a sequence of strings) the
output of `normalizeTags` has no empty element, no element that starts or ends with a
whitespace code unit (each element is its own trimming), no element that differs from its
own lower-casing, and no element twice. -/
theorem normalizeTags_canonical (src : TagSource) :
    (∀ x ∈ normalizeTags src,
      x ≠ [] ∧
      (∀ c, x.head? = some c → isWhiteSpace c = false) ∧
      (∀ c, x.getLast? = some c → isWhiteSpace c = false) ∧
      trim x = x ∧
      toLowerCase x = x) ∧
    (normalizeTags src).Nodup := by
  cases src with
  | missing => simp [normalizeTags]
  | text s =>
    simp only [normalizeTags]
    split_ifs
    · simp
    · exact ⟨fun x hx => normalizeItems_canonical _ x hx, nodup_normalizeItems _⟩
  | items xs =>
    exact ⟨fun x hx => normalizeItems_canonical _ x hx, nodup_normalizeItems _⟩

/-- C5: for a comma-separated string `s`, with `toks` the trimmed and lower-cased pieces of
the comma split, `normalizeTags` returns exactly the non-empty elements of `toks`, each once,
ordered by the position of the first occurrence in `toks` (it is `toks` with duplicates
removed at their first occurrence and empty tokens discarded); and
`normalizeTags("Work, work , IDEAS,,")` is `["work", "ideas"]`. -/
theorem normalizeTags_text_spec (s : Str) :
    (∀ x, x ∈ normalizeTags (.text s) ↔
      x ∈ (split 44 s).map (fun t => toLowerCase (trim t)) ∧ x ≠ []) ∧
    (normalizeTags (.text s)).Nodup ∧
    (normalizeTags (.text s)).Pairwise (fun x y =>
      ((split 44 s).map (fun t => toLowerCase (trim t))).indexOf x <
        ((split 44 s).map (fun t => toLowerCase (trim t))).indexOf y) ∧
    normalizeTags (.text s) =
      (keepFirst ((split 44 s).map (fun t => toLowerCase (trim t)))).filter
        (fun t => !t.isEmpty) ∧
    normalizeTags (.text (js "Work, work , IDEAS,,")) = [js "work", js "ideas"] := by
  have hnil : normalizeTags (.text s) = normalizeItems (split 44 s) := by
    simp only [normalizeTags]
    split_ifs with h
    · have hs : s = [] := by simpa using h
      rw [hs]; decide
    · rfl
  rw [hnil]
  refine ⟨fun x => mem_normalizeItems _ x, nodup_normalizeItems _, ?_, normalizeItems_eq _, ?_⟩
  · rw [normalizeItems_eq]
    exact (pairwise_indexOf_keepFirst _).sublist (List.filter_sublist _)
  · decide

/-! ## The tag universe -/

theorem foldl_tags_eq (notes : List Note) (acc : List Str) :
    notes.foldl (fun acc note => note.tags.foldl setAdd acc) acc =
      (notes.map Note.tags).flatten.foldl setAdd acc := by
  induction notes generalizing acc with
  | nil => rfl
  | cons n ns ih =>
    simp only [List.foldl_cons, List.map_cons, List.flatten_cons, List.foldl_append]
    exact ih _

theorem allTags_eq (notes : List Note) :
    allTags notes = jsSort defaultCompare (keepFirst (notes.map Note.tags).flatten) := by
  simp only [allTags]
  rw [foldl_tags_eq, ← arrayFromSet_eq_keepFirst]
  rfl

theorem defaultCompare_le_iff (x y : Str) : defaultCompare x y ≤ 0 ↔ strLt y x = false := by
  unfold defaultCompare
  by_cases hxy : strLt x y = true
  · simp [hxy, strLt_asymm x y hxy]
  · by_cases hyx : strLt y x = true
    · simp [hxy, hyx]
    · simp [hxy, hyx]

theorem defaultCompare_total (a b : Str) : defaultCompare a b ≤ 0 ∨ defaultCompare b a ≤ 0 := by
  rw [defaultCompare_le_iff, defaultCompare_le_iff]
  by_cases h : strLt b a = true
  · exact Or.inr (strLt_asymm b a h)
  · exact Or.inl (by simpa using h)

theorem defaultCompare_trans (a b c : Str) (hab : defaultCompare a b ≤ 0)
    (hbc : defaultCompare b c ≤ 0) : defaultCompare a c ≤ 0 := by
  rw [defaultCompare_le_iff] at hab hbc ⊢
  by_contra hca
  have hca1 : strLt c a = true := by simpa using hca
  by_cases h : strLt a b = true
  · have := strLt_trans c a b hca1 h
    rw [hbc] at this
    exact absurd this (by decide)
  · have hab0 : strLt a b = false := by simpa using h
    have heq : a = b := strLt_connected a b hab0 hab
    rw [heq, hbc] at hca1
    exact absurd hca1 (by decide)

/-- C6: `allTags` is the union of the notes' tag lists in ascending order: a string is in
the result exactly when it is a tag of some note of the collection, the result has no
duplicates, and every element is strictly less (code-unit lexicographic order) than every
later one, in particular than the next; tags `[["work","home"],["home","urgent"]]` give
`["home","urgent","work"]`. -/
theorem allTags_spec (notes : List Note) :
    (∀ x, x ∈ allTags notes ↔ ∃ n ∈ notes, x ∈ n.tags) ∧
    (allTags notes).Nodup ∧
    (allTags notes).Pairwise (fun a b => strLt a b = true) ∧
    (allTags notes).Chain' (fun a b => strLt a b = true) ∧
    (∀ a b : Note, a.tags = [js "work", js "home"] → b.tags = [js "home", js "urgent"] →
      allTags [a, b] = [js "home", js "urgent", js "work"]) := by
  have hnd : (allTags notes).Nodup := by
    rw [allTags_eq]
    exact (jsSort_perm _ _).nodup_iff.mpr (nodup_keepFirst _)
  have hsorted : (allTags notes).Pairwise (fun a b => strLt a b = true) := by
    have h1 : (allTags notes).Pairwise (fun a b => defaultCompare a b ≤ 0) := by
      rw [allTags_eq]
      exact jsSort_sorted defaultCompare defaultCompare_total defaultCompare_trans _
    refine (h1.and hnd).imp ?_
    intro a b hab
    by_contra hlt
    have hlt0 : strLt a b = false := by simpa using hlt
    exact hab.2 (strLt_connected a b hlt0 ((defaultCompare_le_iff a b).mp hab.1))
  refine ⟨?_, hnd, hsorted, hsorted.chain', ?_⟩
  · intro x
    rw [allTags_eq, mem_jsSort, mem_keepFirst]
    simp only [List.mem_flatten, List.mem_map]
    constructor
    · rintro ⟨l, ⟨n, hn, rfl⟩, hx⟩
      exact ⟨n, hn, hx⟩
    · rintro ⟨n, hn, hx⟩
      exact ⟨n.tags, ⟨n, hn, rfl⟩, hx⟩
  · intro a b ha hb
    simp only [allTags, List.foldl_cons, List.foldl_nil, ha, hb]
    decide

/-- Witness of C6 on the sample notes A (`work`) and C (`work`, `urgent`) and on the tag
lists of the specification's example. -/
theorem allTags_spec_witness :
    allTags [noteA, noteC] = [js "urgent", js "work"] ∧
    allTags
      [{ noteA with tags := [js "work", js "home"] },
       { noteB with tags := [js "home", js "urgent"] }] =
      [js "home", js "urgent", js "work"] :=
  ⟨by decide,
    (allTags_spec []).2.2.2.2 { noteA with tags := [js "work", js "home"] }
      { noteB with tags := [js "home", js "urgent"] } rfl rfl⟩

/-! ## The filtered view -/

theorem matchesTerm_iff (term : Str) (n : Note) :
    matchesTerm term n = true ↔
      term <:+: toLowerCase n.title ∨ term <:+: toLowerCase n.body ∨
        term <:+: toLowerCase (join [32] n.tags) := by
  simp [matchesTerm, includes_iff]

theorem keepNote_iff (term : Str) (activeTags : List Str) (n : Note) :
    keepNote term activeTags n = true ↔
      (term = [] ∨ matchesTerm term n = true) ∧ ∀ tag ∈ activeTags, tag ∈ n.tags := by
  unfold keepNote
  cases term with
  | nil =>
    cases activeTags with
    | nil => simp
    | cons t ts => simp
  | cons c cs =>
    cases activeTags with
    | nil => by_cases hm : matchesTerm (c :: cs) n = true <;> simp [hm]
    | cons t ts => by_cases hm : matchesTerm (c :: cs) n = true <;> simp [hm]

theorem mem_filteredNotes (notes : List Note) (searchTerm : Str) (activeTags : List Str)
    (n : Note) :
    n ∈ filteredNotes notes searchTerm activeTags ↔
      n ∈ notes ∧ keepNote (toLowerCase (trim searchTerm)) activeTags n = true := by
  simp only [filteredNotes, mem_jsSort, List.mem_filter]

theorem byCreatedAtDesc_total (a b : Note) :
    byCreatedAtDesc a b ≤ 0 ∨ byCreatedAtDesc b a ≤ 0 := by
  unfold byCreatedAtDesc; omega

theorem byCreatedAtDesc_trans (a b c : Note) (hab : byCreatedAtDesc a b ≤ 0)
    (hbc : byCreatedAtDesc b c ≤ 0) : byCreatedAtDesc a c ≤ 0 := by
  unfold byCreatedAtDesc at *; omega

theorem filteredNotes_descending (notes : List Note) (searchTerm : Str)
    (activeTags : List Str) :
    (filteredNotes notes searchTerm activeTags).Pairwise
      (fun a b => a.createdAt ≥ b.createdAt) := by
  have h := jsSort_sorted byCreatedAtDesc byCreatedAtDesc_total byCreatedAtDesc_trans
    (notes.filter (keepNote (toLowerCase (trim searchTerm)) activeTags))
  refine h.imp ?_
  intro a b hab
  unfold byCreatedAtDesc at hab
  omega

theorem filteredNotes_filter_createdAt (notes : List Note) (searchTerm : Str)
    (activeTags : List Str) (t : Int) :
    (filteredNotes notes searchTerm activeTags).filter (fun n => n.createdAt == t) =
      (notes.filter (keepNote (toLowerCase (trim searchTerm)) activeTags)).filter
        (fun n => n.createdAt == t) := by
  simp only [filteredNotes]
  apply filter_jsSort
  intro a b ha hb
  have ha1 : a.createdAt = t := by simpa using ha
  have hb1 : b.createdAt = t := by simpa using hb
  unfold byCreatedAtDesc
  omega

/-- C1: for a non-empty `activeTags`, a note is in the `filteredNotes` result only if it is
a note of the collection whose tags contain every active tag (a note that lacks one of the
active tags is never returned), and every note of the collection that passes the text filter
(the trimmed, lower-cased term is empty or a substring of the lower-cased title, body or
space-joined tag list) and whose tags contain every active tag is in the result. -/
theorem filteredNotes_tags_conjunctive (notes : List Note) (searchTerm : Str)
    (activeTags : List Str) (_hne : activeTags ≠ []) :
    (∀ n ∈ filteredNotes notes searchTerm activeTags,
      n ∈ notes ∧ ∀ tag ∈ activeTags, tag ∈ n.tags) ∧
    (∀ n : Note, ∀ tag ∈ activeTags, tag ∉ n.tags →
      n ∉ filteredNotes notes searchTerm activeTags) ∧
    (∀ n ∈ notes,
      (toLowerCase (trim searchTerm) = [] ∨
        toLowerCase (trim searchTerm) <:+: toLowerCase n.title ∨
        toLowerCase (trim searchTerm) <:+: toLowerCase n.body ∨
        toLowerCase (trim searchTerm) <:+: toLowerCase (join [32] n.tags)) →
      (∀ tag ∈ activeTags, tag ∈ n.tags) →
      n ∈ filteredNotes notes searchTerm activeTags) := by
  refine ⟨?_, ?_, ?_⟩
  · intro n hn
    rw [mem_filteredNotes, keepNote_iff] at hn
    exact ⟨hn.1, hn.2.2⟩
  · intro n tag htag hnot hn
    rw [mem_filteredNotes, keepNote_iff] at hn
    exact hnot (hn.2.2 tag htag)
  · intro n hn htext htags
    rw [mem_filteredNotes, keepNote_iff, matchesTerm_iff]
    exact ⟨hn, htext, htags⟩

/-- Witness of C1 on sample notes, the search term `"привет"` and the active tags `work`
and `urgent`. -/
theorem filteredNotes_tags_conjunctive_witness :
    [js "work", js "urgent"] ≠ [] ∧
    ((∀ n ∈ filteredNotes [noteA, noteC, noteD] (js "привет") [js "work", js "urgent"],
      n ∈ [noteA, noteC, noteD] ∧ ∀ tag ∈ [js "work", js "urgent"], tag ∈ n.tags) ∧
    (∀ n : Note, ∀ tag ∈ [js "work", js "urgent"], tag ∉ n.tags →
      n ∉ filteredNotes [noteA, noteC, noteD] (js "привет") [js "work", js "urgent"]) ∧
    (∀ n ∈ [noteA, noteC, noteD],
      (toLowerCase (trim (js "привет")) = [] ∨
        toLowerCase (trim (js "привет")) <:+: toLowerCase n.title ∨
        toLowerCase (trim (js "привет")) <:+: toLowerCase n.body ∨
        toLowerCase (trim (js "привет")) <:+: toLowerCase (join [32] n.tags)) →
      (∀ tag ∈ [js "work", js "urgent"], tag ∈ n.tags) →
      n ∈ filteredNotes [noteA, noteC, noteD] (js "привет") [js "work", js "urgent"])) :=
  ⟨by decide,
    filteredNotes_tags_conjunctive [noteA, noteC, noteD] (js "привет")
      [js "work", js "urgent"] (by decide)⟩

/-- C2: when the trimmed, lower-cased search term `t` is non-empty and no tag is active, a
note of the collection is in the `filteredNotes` result if and only if `t` is a substring of
the lower-cased title, or of the lower-cased body, or of the lower-cased space-joined tag
list. -/
theorem filteredNotes_text_filter (notes : List Note) (searchTerm : Str) (n : Note)
    (ht : toLowerCase (trim searchTerm) ≠ []) (hn : n ∈ notes) :
    n ∈ filteredNotes notes searchTerm [] ↔
      (toLowerCase (trim searchTerm) <:+: toLowerCase n.title ∨
        toLowerCase (trim searchTerm) <:+: toLowerCase n.body ∨
        toLowerCase (trim searchTerm) <:+: toLowerCase (join [32] n.tags)) := by
  rw [mem_filteredNotes, keepNote_iff, matchesTerm_iff]
  constructor
  · rintro ⟨_, h, _⟩
    exact h.resolve_left ht
  · intro h
    exact ⟨hn, Or.inr h, by simp⟩

/-- Witness of C2: note D of the sample (title `"Привет"`) and the search term
`" ПРИВЕТ "`. -/
theorem filteredNotes_text_filter_witness :
    toLowerCase (trim (js " ПРИВЕТ ")) ≠ [] ∧ noteD ∈ [noteA, noteD] ∧
    (noteD ∈ filteredNotes [noteA, noteD] (js " ПРИВЕТ ") [] ↔
      (toLowerCase (trim (js " ПРИВЕТ ")) <:+: toLowerCase noteD.title ∨
        toLowerCase (trim (js " ПРИВЕТ ")) <:+: toLowerCase noteD.body ∨
        toLowerCase (trim (js " ПРИВЕТ ")) <:+: toLowerCase (join [32] noteD.tags))) :=
  ⟨by decide, by decide,
    filteredNotes_text_filter [noteA, noteD] (js " ПРИВЕТ ") noteD (by decide) (by decide)⟩

/-- C3: when the search term is empty after trimming and no tag is active, the
`filteredNotes` result is a permutation of the collection, ordered by `createdAt`
descending. -/
theorem filteredNotes_no_filters (notes : List Note) (searchTerm : Str)
    (hs : trim searchTerm = []) :
    (filteredNotes notes searchTerm []).Perm notes ∧
    (filteredNotes notes searchTerm []).Pairwise (fun a b => a.createdAt ≥ b.createdAt) ∧
    (filteredNotes notes searchTerm []).Chain' (fun a b => a.createdAt ≥ b.createdAt) := by
  refine ⟨?_, filteredNotes_descending _ _ _, (filteredNotes_descending _ _ _).chain'⟩
  have hall : notes.filter (keepNote (toLowerCase (trim searchTerm)) []) = notes := by
    rw [List.filter_eq_self]
    intro n _
    rw [keepNote_iff, hs]
    exact ⟨Or.inl rfl, by simp⟩
  simp only [filteredNotes, hall]
  exact jsSort_perm _ _

/-- Witness of C3: the sample notes and a search term of two spaces. -/
theorem filteredNotes_no_filters_witness :
    trim (js "  ") = [] ∧
    ((filteredNotes [noteA, noteB] (js "  ") []).Perm [noteA, noteB] ∧
    (filteredNotes [noteA, noteB] (js "  ") []).Pairwise
      (fun a b => a.createdAt ≥ b.createdAt) ∧
    (filteredNotes [noteA, noteB] (js "  ") []).Chain'
      (fun a b => a.createdAt ≥ b.createdAt)) :=
  ⟨by decide, filteredNotes_no_filters [noteA, noteB] (js "  ") (by decide)⟩

theorem filter_keepNote_eq (notes : List Note) (term : Str) (activeTags : List Str) :
    notes.filter (keepNote term activeTags) =
      notes.filter (fun n => decide
        ((term = [] ∨ term <:+: toLowerCase n.title ∨ term <:+: toLowerCase n.body ∨
            term <:+: toLowerCase (join [32] n.tags)) ∧
          ∀ tag ∈ activeTags, tag ∈ n.tags)) := by
  apply List.filter_congr
  intro n _
  rw [Bool.eq_iff_iff, decide_eq_true_eq, keepNote_iff, matchesTerm_iff]

/-- C7: the `filteredNotes` result is ordered by `createdAt` descending and the ordering is
stable. With `survivors` the notes of the collection that pass the text filter and the tag
filter, in the order of the collection: the result is a permutation of `survivors`; for every
instant `t` the notes of the result created at `t` are, in the order of the result, the
notes of `survivors` created at `t` in the order of the collection; and two notes with equal
`createdAt` occur in the result in some order exactly when they occur in `survivors` in that
order. -/
theorem filteredNotes_sorted_stable (notes : List Note) (searchTerm : Str)
    (activeTags : List Str) :
    (filteredNotes notes searchTerm activeTags).Pairwise
      (fun a b => a.createdAt ≥ b.createdAt) ∧
    ∃ survivors : List Note,
      survivors = notes.filter (fun n => decide
        ((toLowerCase (trim searchTerm) = [] ∨
            toLowerCase (trim searchTerm) <:+: toLowerCase n.title ∨
            toLowerCase (trim searchTerm) <:+: toLowerCase n.body ∨
            toLowerCase (trim searchTerm) <:+: toLowerCase (join [32] n.tags)) ∧
          ∀ tag ∈ activeTags, tag ∈ n.tags)) ∧
      List.Sublist survivors notes ∧
      (filteredNotes notes searchTerm activeTags).Perm survivors ∧
      (∀ t : Int,
        (filteredNotes notes searchTerm activeTags).filter (fun n => n.createdAt == t) =
          survivors.filter (fun n => n.createdAt == t)) ∧
      (∀ a b : Note, a.createdAt = b.createdAt →
        (List.Sublist [a, b] (filteredNotes notes searchTerm activeTags) ↔
          List.Sublist [a, b] survivors)) := by
  refine ⟨filteredNotes_descending _ _ _, _, rfl, List.filter_sublist _, ?_, ?_, ?_⟩
  · rw [← filter_keepNote_eq]
    exact jsSort_perm _ _
  · intro t
    rw [← filter_keepNote_eq]
    exact filteredNotes_filter_createdAt notes searchTerm activeTags t
  · intro a b hab
    rw [← filter_keepNote_eq]
    have hfilter := filteredNotes_filter_createdAt notes searchTerm activeTags a.createdAt
    have hpair : [a, b].filter (fun n => n.createdAt == a.createdAt) = [a, b] := by
      rw [List.filter_eq_self]
      intro x hx
      rcases List.mem_cons.mp hx with h | h
      · rw [h]; simp
      · rw [List.mem_singleton.mp h, hab]; simp
    constructor
    · intro hsub
      have h1 := hsub.filter (fun n => n.createdAt == a.createdAt)
      rw [hpair, hfilter] at h1
      exact h1.trans (List.filter_sublist _)
    · intro hsub
      have h1 := hsub.filter (fun n => n.createdAt == a.createdAt)
      rw [hpair, ← hfilter] at h1
      exact h1.trans (List.filter_sublist _)

/-- Witness of C7: the sample notes B and C have the same `createdAt`, both survive, and
they keep the order of the collection in the result. -/
theorem filteredNotes_sorted_stable_witness :
    noteB.createdAt = noteC.createdAt ∧
    List.Sublist [noteB, noteC] (filteredNotes [noteA, noteB, noteC] [] []) ∧
    ¬ List.Sublist [noteC, noteB] (filteredNotes [noteA, noteB, noteC] [] []) := by
  obtain ⟨_, survivors, hs, _, _, _, hpair⟩ :=
    filteredNotes_sorted_stable [noteA, noteB, noteC] [] []
  have hs1 : survivors = [noteA, noteB, noteC] := by rw [hs]; decide
  refine ⟨by decide, ?_, ?_⟩
  · rw [hpair noteB noteC (by decide), hs1]
    decide
  · rw [hpair noteC noteB (by decide), hs1]
    decide

/-- The scenario of the specification on the sample notes A (older, `work`) and
B (newer, `home`), and a tie between B and C kept in collection order. -/
theorem filteredNotes_scenario :
    filteredNotes [noteA, noteB] [] [] = [noteB, noteA] ∧
    filteredNotes [noteA, noteB] [] [js "work"] = [noteA] ∧
    filteredNotes [noteA, noteB] (js "home") [] = [noteB] ∧
    filteredNotes [noteA, noteB, noteC] [] [js "work", js "urgent"] = [noteC] ∧
    filteredNotes [noteA, noteB, noteC] [] [] = [noteB, noteC, noteA] ∧
    filteredNotes [noteA, noteC, noteB] [] [] = [noteC, noteB, noteA] := by
  decide

/-- Lower-casing beyond Basic Latin on samples: Cyrillic, `U+0130` (two code units),
`U+0100`, the Kelvin sign, final sigma, a Deseret letter (a surrogate pair); and the views
built on it. -/
theorem unicode_scenario :
    toLowerCase (js "Привет") = js "привет" ∧
    toLowerCase (js "İstanbul") = [105, 775, 115, 116, 97, 110, 98, 117, 108] ∧
    toLowerCase [256, 8490] = [257, 107] ∧
    toLowerCase (js "ΟΔΟΣ ΣΑΣ") = js "οδος σας" ∧
    toLowerCase [55297, 56320] = [55297, 56360] ∧
    normalizeTags (.text (js "Работа, работа")) = [js "работа"] ∧
    normalizeTags (.text (js "İstanbul, Ā")) =
      [[105, 775, 115, 116, 97, 110, 98, 117, 108], [257]] ∧
    filteredNotes [noteD] (js "привет") [] = [noteD] ∧
    filteredNotes [noteA, noteD] (js "привет") [js "work"] = [noteD] := by
  decide!

/-! ## The note store -/

/-- C8: `handleDelete` yields a collection with no note of the given id, which is a
sublist of the collection (relative order kept) holding every note of a different id as
often as the collection does; when no note has the id the collection is unchanged. -/
theorem handleDelete_spec (id : Str) (prev : List Note) :
    (∀ n ∈ handleDelete id prev, n.id ≠ id) ∧
    List.Sublist (handleDelete id prev) prev ∧
    (∀ n : Note, n.id ≠ id → (handleDelete id prev).count n = prev.count n) ∧
    ((∀ n ∈ prev, n.id ≠ id) → handleDelete id prev = prev) := by
  refine ⟨?_, List.filter_sublist _, ?_, ?_⟩
  · intro n hn
    simpa using (List.mem_filter.mp hn).2
  · intro n hn
    unfold handleDelete
    rw [List.count_filter]
    simpa using hn
  · intro h
    unfold handleDelete
    rw [List.filter_eq_self]
    intro n hn
    simpa using h n hn

/-- Witness of C8: deleting an id that no sample note has leaves the collection as it is,
and deleting `"b"` removes note B only. -/
theorem handleDelete_spec_witness :
    (∀ n ∈ [noteA, noteB, noteC], n.id ≠ js "zzz") ∧
    handleDelete (js "zzz") [noteA, noteB, noteC] = [noteA, noteB, noteC] ∧
    handleDelete (js "b") [noteA, noteB, noteC] = [noteA, noteC] :=
  ⟨by decide,
    (handleDelete_spec (js "zzz") [noteA, noteB, noteC]).2.2.2 (by decide), by decide⟩

/-- C9: `handleCreate` yields the collection whose first element is the new note and whose
remaining elements are the previous collection, unchanged and in order. -/
theorem handleCreate_spec (note : Note) (prev : List Note) :
    handleCreate note prev = note :: prev ∧
    (handleCreate note prev).head? = some note ∧
    (handleCreate note prev).tail = prev ∧
    (handleCreate note prev).length = prev.length + 1 := by
  simp [handleCreate]

/-! ## The note factory -/

/-- C10 as stated fails: a title of one space and an empty body give a note whose title
and body are both empty, although the title input is not empty. -/
theorem createNote_blank_counterexample :
    ((createNote (js "id-1") 0 (js " ") [] TagSource.missing).title = [] ∧
      (createNote (js "id-1") 0 (js " ") [] TagSource.missing).body = []) ∧
    ¬ (js " " = [] ∧ ([] : Str) = []) := by
  decide

/-- C10 amended: `createNote` returns a note with both title and body empty exactly when
both inputs are empty after trimming, that is when each consists of whitespace only; the
note's title and body are the trimmed inputs, each a contiguous part of its input. -/
theorem createNote_empty_iff (freshId : Str) (now : Int) (title body : Str)
    (tags : TagSource) :
    (((createNote freshId now title body tags).title = [] ∧
        (createNote freshId now title body tags).body = []) ↔
      ((∀ c ∈ title, isWhiteSpace c = true) ∧ (∀ c ∈ body, isWhiteSpace c = true))) ∧
    (createNote freshId now title body tags).title = trim title ∧
    (createNote freshId now title body tags).body = trim body ∧
    trim title <:+: title ∧ trim body <:+: body := by
  have hinfix : ∀ s : Str, trim s <:+: s := fun s =>
    ( List.rdropWhile_prefix isWhiteSpace _).isInfix.trans
      (List.dropWhile_suffix isWhiteSpace).isInfix
  refine ⟨?_, rfl, rfl, hinfix title, hinfix body⟩
  simp only [createNote, trim_eq_nil_iff]

end PocketNotes
